import Mathlib

set_option maxRecDepth 8000
set_option maxHeartbeats 16000000

/-
Verification of the rs2 Reed-Solomon(255,223) CCSDS decoder.

The two repository source files src/lib.rs and src/dual_basis.rs are embedded
below as computable Lean definitions, keeping the source's names.  The module
src/gf.rs is declared by lib.rs (`pub mod gf;`) but its file is not present in
the repository; its operations are modelled from the specification's Field
Engine contract (add = XOR, multiplication/division/power/inverse defined by
the primitive polynomial x^8+x^7+x^2+x+1 with exponent normalization mod 255,
and the standard polynomial operations), using the log/antilog table
representation the specification describes ("field log/antilog data" held as
immutable constant tables).  The tables are packed into base-256 natural
number literals so that concrete runs of the decoder reduce quickly; theorems
below anchor them to the polynomial reduction rules.

Rust-side partiality is made explicit: operations that can panic (slice
indexing, integer underflow, `unwrap`, inversion of zero) return `Option`,
with `none` standing for a panic; `correct_errata`'s `Result` is an `Except`.
-/

namespace RS2

/-- Strict sequencing helper: forces a natural number to a numeral before
continuing.  Semantically the identity (see `seqN_eq`); it models the strict
evaluation order of the Rust loops and keeps reduction stacks shallow. -/
def seqN {a : Sort u} (n : Nat) (k : Nat → a) : a :=
  match n with
  | 0 => k 0
  | m + 1 => k (m + 1)

theorem seqN_eq {a : Sort u} (n : Nat) (k : Nat → a) : seqN n k = k n := by
  cases n <;> rfl

/-- Symbols per code word (lib.rs `N`). -/
def N : Nat := 255

/-- Primitive element alpha^11 (lib.rs `GEN`). -/
def GEN : Nat := 173

/-- First consecutive root exponent 128-E (lib.rs `FCR`). -/
def FCR : Int := 112

/-- Number of parity bytes per message (lib.rs `PARITY_LEN`). -/
def PARITY_LEN : Nat := 32

namespace gf

/-- Modelled from the spec: GF(256) product computed directly from the
primitive polynomial x^8+x^7+x^2+x+1 = 391 ("multiplication ... defined via
this polynomial's reduction rules"); src/gf.rs is absent from the repository.
Carry-less shift-and-add over the eight bits of `b`, then reduction clearing
bits 14 down to 8 (subtracting 391·2^(k-8) when bit k is set).  Used to anchor
the log/antilog tables; the pipeline itself uses the table form `mult`. -/
def mult_nolut (a b : Nat) : Nat :=
  let t :=
    b % 2 * a ^^^
    b / 2 % 2 * (2 * a) ^^^
    b / 4 % 2 * (4 * a) ^^^
    b / 8 % 2 * (8 * a) ^^^
    b / 16 % 2 * (16 * a) ^^^
    b / 32 % 2 * (32 * a) ^^^
    b / 64 % 2 * (64 * a) ^^^
    b / 128 % 2 * (128 * a)
  let t := t ^^^ t / 16384 % 2 * 25024
  let t := t ^^^ t / 8192 % 2 * 12512
  let t := t ^^^ t / 4096 % 2 * 6256
  let t := t ^^^ t / 2048 % 2 * 3128
  let t := t ^^^ t / 1024 % 2 * 1564
  let t := t ^^^ t / 512 % 2 * 782
  let t := t ^^^ t / 256 % 2 * 391
  t

/-- Modelled from the spec: the antilog table of the field, packed base-256.
Entry i (for i < 255) is alpha^i where alpha = x = 2 is the primitive root of
x^8+x^7+x^2+x+1; see `alogAt_zero` and `alogAt_succ` for the anchoring. -/
def ALOGN : Nat :=
  96470751738559437163905375243373733486258559867596111795260567268168261280711724828880262411479863312435932157688751571891274269114222354987500919215255937122586195586649821342425769117421772635691547124915681930263282054725104219290021364809590451001664009630953215337977421344033154830134887992171952360941134295505693654374068915831908679204947236510401984800062656340538139204590565194596170573924337089255646347478766437708384991018465380180529399110003252187802750296549747646461219844674040269168260438091937036523526540808154661459842314153512647059082648034312925775716614524098761298519150382503625490945

/-- Modelled from the spec: the log table inverse to `ALOGN`, packed base-256.
Entry a (for nonzero a < 256) is the discrete log of a base alpha = 2; entry 0
is an unused placeholder 0.  See `alogAt_logAt` and `logAt_alogAt`. -/
def LOGN : Nat :=
  23131511326342487972382036265933434553510168135514803859831515783635581917716040035552318999770158297715798639968086845101993215082544798493027451646889255881384136448855062238059984399330004913101660648914958973161129098198712986974182047068011798903828811688485564915035048335713221224953737858806491503406246483690850402906854746959618046663859521499413201273712971389232227941379194991977286339856448764001078709259903761836099160743377148208732883418970345696811975651139480841084114228876070884534994094871535144027853177369230818656306764980155256565532322770095294212355767784185560721578483659557953029079040

/-- Entry `i` of the packed antilog table. -/
def alogAt (i : Nat) : Nat := ALOGN / 256 ^ i % 256

/-- Entry `a` of the packed log table. -/
def logAt (a : Nat) : Nat := LOGN / 256 ^ a % 256

/-- Modelled from the spec: GF(256) multiplication via the log/antilog tables
("field log/antilog data"); zero annihilates.  Agrees with `mult_nolut` on
byte operands through the table anchoring theorems. -/
def mult (a b : Nat) : Nat :=
  if a = 0 then 0
  else if b = 0 then 0
  else alogAt ((logAt a + logAt b) % 255)

/-- Modelled from the spec: `power(a,e)` for integer `e`, the exponent
normalized modulo the multiplicative order 255 before the table lookup.
Only ever applied to nonzero bases by the decoder. -/
def pow (a : Nat) (e : Int) : Nat :=
  alogAt (logAt a * (e % 255).toNat % 255)

/-- Table form of the inverse of a nonzero element. -/
def invAt (a : Nat) : Nat := alogAt ((255 - logAt a) % 255)

/-- Modelled from the spec: `inverse(a)` "fails if a==0"; the failure is a
panic in Rust, modelled as `none`. -/
def inv (a : Nat) : Option Nat :=
  if a = 0 then none else some (invAt a)

/-- Modelled from the spec: `divide(a,b)` "fails if b==0", otherwise the
product of `a` with the inverse of `b`. -/
def div (a b : Nat) : Option Nat :=
  if b = 0 then none else some (mult a (invAt b))

/-- Horner step chain for `poly_eval`, forcing each intermediate value. -/
def poly_eval_go (x : Nat) : List Nat → Nat → Nat
  | [], y => y
  | d :: rest, y => seqN (mult y x ^^^ d) (poly_eval_go x rest)

/-- Modelled from the spec: `evaluate(poly, x)` via Horner's method, most
significant coefficient first. -/
def poly_eval (p : List Nat) (x : Nat) : Nat :=
  match p with
  | [] => 0
  | c :: rest => poly_eval_go x rest c

/-- Modelled from the spec: `add(p,q)`, coefficient-wise XOR after
right-aligning the shorter operand with leading zeros. -/
def poly_add (p q : List Nat) : List Nat :=
  List.zipWith (fun a b => a ^^^ b)
    (List.replicate (max p.length q.length - p.length) 0 ++ p)
    (List.replicate (max p.length q.length - q.length) 0 ++ q)

/-- Modelled from the spec: `scale(p,k)`, every coefficient multiplied by `k`. -/
def poly_scale (p : List Nat) (k : Nat) : List Nat :=
  p.map (fun c => mult c k)

/-- Modelled from the spec: `multiply(p,q)` as convolution — for each pair of
coefficients, field-multiply and XOR-accumulate into the output at the summed
degree.  Coefficient `k` of the result gathers all pairs with i + j = k. -/
def poly_mult (p q : List Nat) : List Nat :=
  (List.range (p.length + q.length - 1)).map (fun k =>
    (List.range p.length).foldl (fun acc i =>
      acc ^^^ (if i ≤ k ∧ k - i < q.length then mult (p.getD i 0) (q.getD (k - i) 0) else 0)) 0)

/-- Cancellation steps of standard polynomial long division (most significant
coefficient first); the fuel argument bounds the step count by the dividend
length. -/
def poly_div_go (d0 : Nat) (dt : List Nat) : Nat → List Nat → List Nat × List Nat
  | 0, cur => ([], cur)
  | fuel + 1, cur =>
    if cur.length < dt.length + 1 then ([], cur)
    else
      let c := mult (cur.headD 0) (invAt d0)
      let sub := poly_add cur
        (poly_scale (d0 :: dt) c ++ List.replicate (cur.length - (dt.length + 1)) 0)
      match poly_div_go d0 dt fuel sub.tail with
      | (q, r) => (c :: q, r)

/-- Modelled from the spec: `divide(p, divisor)` returning quotient and
remainder via standard polynomial long division using field arithmetic; an
empty divisor or a zero leading coefficient cannot be divided by. -/
def poly_div (p d : List Nat) : Option (List Nat × List Nat) :=
  match d with
  | [] => none
  | d0 :: dt => if d0 = 0 then none else some (poly_div_go d0 dt p.length p)

end gf

namespace dual_basis

/-- LUT from dual-basis to conventional representation (dual_basis.rs,
CCSDS 131.0-B3 Appendix E). -/
def DUAL_TO_CONV : List Nat := [
    0, 204, 172, 96, 121, 181, 213, 25, 240, 60, 92, 144, 137, 69, 37, 233,
    253, 49, 81, 157, 132, 72, 40, 228, 13, 193, 161, 109, 116, 184, 216, 20,
    46, 226, 130, 78, 87, 155, 251, 55, 222, 18, 114, 190, 167, 107, 11, 199,
    211, 31, 127, 179, 170, 102, 6, 202, 35, 239, 143, 67, 90, 150, 246, 58,
    66, 142, 238, 34, 59, 247, 151, 91, 178, 126, 30, 210, 203, 7, 103, 171,
    191, 115, 19, 223, 198, 10, 106, 166, 79, 131, 227, 47, 54, 250, 154, 86,
    108, 160, 192, 12, 21, 217, 185, 117, 156, 80, 48, 252, 229, 41, 73, 133,
    145, 93, 61, 241, 232, 36, 68, 136, 97, 173, 205, 1, 24, 212, 180, 120,
    197, 9, 105, 165, 188, 112, 16, 220, 53, 249, 153, 85, 76, 128, 224, 44,
    56, 244, 148, 88, 65, 141, 237, 33, 200, 4, 100, 168, 177, 125, 29, 209,
    235, 39, 71, 139, 146, 94, 62, 242, 27, 215, 183, 123, 98, 174, 206, 2,
    22, 218, 186, 118, 111, 163, 195, 15, 230, 42, 74, 134, 159, 83, 51, 255,
    135, 75, 43, 231, 254, 50, 82, 158, 119, 187, 219, 23, 14, 194, 162, 110,
    122, 182, 214, 26, 3, 207, 175, 99, 138, 70, 38, 234, 243, 63, 95, 147,
    169, 101, 5, 201, 208, 28, 124, 176, 89, 149, 245, 57, 32, 236, 140, 64,
    84, 152, 248, 52, 45, 225, 129, 77, 164, 104, 8, 196, 221, 17, 113, 189
  ]

/-- LUT from conventional to dual-basis representation (dual_basis.rs,
CCSDS 131.0-B3 Appendix E). -/
def CONV_TO_DUAL : List Nat := [
    0, 123, 175, 212, 153, 226, 54, 77, 250, 129, 85, 46, 99, 24, 204, 183,
    134, 253, 41, 82, 31, 100, 176, 203, 124, 7, 211, 168, 229, 158, 74, 49,
    236, 151, 67, 56, 117, 14, 218, 161, 22, 109, 185, 194, 143, 244, 32, 91,
    106, 17, 197, 190, 243, 136, 92, 39, 144, 235, 63, 68, 9, 114, 166, 221,
    239, 148, 64, 59, 118, 13, 217, 162, 21, 110, 186, 193, 140, 247, 35, 88,
    105, 18, 198, 189, 240, 139, 95, 36, 147, 232, 60, 71, 10, 113, 165, 222,
    3, 120, 172, 215, 154, 225, 53, 78, 249, 130, 86, 45, 96, 27, 207, 180,
    133, 254, 42, 81, 28, 103, 179, 200, 127, 4, 208, 171, 230, 157, 73, 50,
    141, 246, 34, 89, 20, 111, 187, 192, 119, 12, 216, 163, 238, 149, 65, 58,
    11, 112, 164, 223, 146, 233, 61, 70, 241, 138, 94, 37, 104, 19, 199, 188,
    97, 26, 206, 181, 248, 131, 87, 44, 155, 224, 52, 79, 2, 121, 173, 214,
    231, 156, 72, 51, 126, 5, 209, 170, 29, 102, 178, 201, 132, 255, 43, 80,
    98, 25, 205, 182, 251, 128, 84, 47, 152, 227, 55, 76, 1, 122, 174, 213,
    228, 159, 75, 48, 125, 6, 210, 169, 30, 101, 177, 202, 135, 252, 40, 83,
    142, 245, 33, 90, 23, 108, 184, 195, 116, 15, 219, 160, 237, 150, 66, 57,
    8, 115, 167, 220, 145, 234, 62, 69, 242, 137, 93, 38, 107, 16, 196, 191
  ]

/-- Convert data to conventional format (dual_basis.rs `to_conv`). -/
def to_conv (msg : List Nat) : List Nat :=
  msg.map (fun x => DUAL_TO_CONV.getD x 0)

/-- Convert data to dual-basis format (dual_basis.rs `to_dual`). -/
def to_dual (msg : List Nat) : List Nat :=
  msg.map (fun x => CONV_TO_DUAL.getD x 0)

end dual_basis

/-- Disposition of the RS process (lib.rs `RSState`). -/
inductive RSState where
  | Ok : RSState
  | Corrected : Int → RSState
  | Uncorrectable : String → RSState
  | NotPerformed : RSState
deriving DecidableEq

/-- Result of `correct_message` (lib.rs `Block`). -/
structure Block where
  state : RSState
  message : Option (List Nat)
deriving DecidableEq

/-- lib.rs `calc_syndromes`: element 0 is the zero placeholder, element i+1
evaluates the block at GEN^(i+FCR). -/
def calc_syndromes (input : List Nat) (parity_len : Nat) : List Nat :=
  0 :: (List.range parity_len).map (fun (i : Nat) => gf.poly_eval input (gf.pow GEN ((i : Int) + FCR)))

/-- Rust `iter().max()`: `none` on an empty list (whose `unwrap` panics). -/
def iter_max : List Nat → Option Nat
  | [] => none
  | x :: xs => some (xs.foldl Nat.max x)

/-- One erasure-folding pass of lib.rs `forney_syndromes`:
`fsynd[j] = mult(fsynd[j], x) ^ fsynd[j+1]` for j below len-1. -/
def forney_fold (fsynd : List Nat) (x : Nat) : List Nat :=
  (List.range fsynd.length).map (fun j =>
    if j + 1 < fsynd.length then gf.mult (fsynd.getD j 0) x ^^^ fsynd.getD (j + 1) 0
    else fsynd.getD j 0)

/-- lib.rs `forney_syndromes`: drops the sentinel, then folds once per erasure
position (the public pipeline always passes an empty position list). -/
def forney_syndromes (synd : List Nat) (pos : List Int) (nmess : Int) : Option (List Nat) :=
  match synd with
  | [] => none
  | _ :: fsynd0 =>
    pos.foldlM (fun fsynd p =>
      if fsynd.isEmpty then none
      else some (forney_fold fsynd (gf.pow GEN (nmess - 1 - p)))) fsynd0

/-- Discrepancy of one iteration of lib.rs `find_error_locator`:
`delta = synd[k] ^ XOR over j of mult(errloc[len-j-1], synd[k-j])` for j in
[1, len), with the potentially panicking accesses made explicit. -/
def bl_delta (synd errloc : List Nat) (k : Nat) : Option Nat :=
  match synd.get? k with
  | none => none
  | some d0 =>
    (List.range' 1 (errloc.length - 1)).foldlM (fun acc j =>
      if j ≤ k then
        match synd.get? (k - j), errloc.get? (errloc.length - j - 1) with
        | some s, some c => some (acc ^^^ gf.mult c s)
        | _, _ => none
      else none) d0

/-- One iteration of the Berlekamp-Massey loop of lib.rs
`find_error_locator`, acting on the pair (errloc, oldloc). -/
def bl_step (synd : List Nat) (shift : Nat) (st : List Nat × List Nat) (i : Nat) :
    Option (List Nat × List Nat) :=
  match bl_delta synd st.1 (i + shift) with
  | none => none
  | some delta =>
    let oldloc1 := st.2 ++ [0]
    if delta = 0 then some (st.1, oldloc1)
    else if oldloc1.length > st.1.length then
      match gf.inv delta with
      | none => none
      | some iv =>
        some (gf.poly_add (gf.poly_scale oldloc1 delta)
                (gf.poly_scale (gf.poly_scale st.1 iv) delta),
              gf.poly_scale st.1 iv)
    else some (gf.poly_add st.1 (gf.poly_scale oldloc1 delta), oldloc1)

/-- Leading-zero stripping at the end of lib.rs `find_error_locator`. -/
def strip_leading : List Nat → List Nat
  | [] => []
  | c :: rest => if c = 0 then strip_leading rest else c :: rest

/-- lib.rs `find_error_locator`. -/
def find_error_locator (synd : List Nat) (parity_len : Nat) : Option (List Nat) :=
  let shift := if synd.length > parity_len then synd.length - parity_len else 0
  match (List.range parity_len).foldlM (bl_step synd shift) ([1], [1]) with
  | none => none
  | some st => some (strip_leading st.1)

/-- lib.rs `find_errors`: Chien-style root search, recording N-1-i whenever
the reversed locator vanishes at GEN^i. -/
def find_errors (errloc : List Nat) : List Int :=
  (List.range 255).filterMap (fun (i : Nat) =>
    if gf.poly_eval errloc (gf.pow GEN (i : Int)) = 0 then some ((N : Int) - 1 - (i : Int))
    else none)

/-- lib.rs `find_errata_locator`: product of (1 - GEN^p · x) factors. -/
def find_errata_locator (errpos : List Int) : List Nat :=
  errpos.foldl (fun errloc p =>
    gf.poly_mult errloc (gf.poly_add [1] [gf.pow GEN p, 0])) [1]

/-- lib.rs `find_error_evaluator`: the divisor is the length-(n+2) vector with
leading 1 (the polynomial x^(n+1)); a negative `n` would overflow the Rust
`n as usize + 2` allocation, modelled as `none`. -/
def find_error_evaluator (synd errloc : List Nat) (n : Int) : Option (List Nat) :=
  if n < 0 then none
  else
    match gf.poly_div (gf.poly_mult synd errloc) (1 :: List.replicate (n.toNat + 1) 0) with
    | none => none
    | some qr => some qr.2

/-- Per-position loop of lib.rs `correct_errata`, building the error vector
`e`; iterates over the pairs (X_i, errpos[i]) with running index `i`. -/
def correct_errata_go (x : List Nat) (erreval : List Nat) :
    List (Nat × Int) → Nat → List Nat → Option (Except String (List Nat))
  | [], _, e => some (Except.ok e)
  | (xi, p) :: rest, i, e =>
    match gf.inv xi with
    | none => none
    | some xi_inv =>
      let tmp := ((List.range x.length).filter (fun j => j ≠ i)).map
        (fun j => 1 ^^^ gf.mult xi_inv (x.getD j 0))
      let errloc_prime := tmp.foldl (fun acc c => gf.mult acc c) 1
      let erreval_rev := erreval.reverse
      let y0 := gf.poly_eval erreval_rev xi_inv
      let y := gf.mult (gf.pow xi (1 - FCR)) y0
      if errloc_prime = 0 then some (Except.error "failed to find error magnitude")
      else
        match gf.div y errloc_prime with
        | none => none
        | some mag =>
          if 0 ≤ p ∧ p.toNat < e.length then
            correct_errata_go x erreval rest (i + 1) (e.set p.toNat mag)
          else none

/-- lib.rs `correct_errata` (Forney algorithm). -/
def correct_errata (input synd : List Nat) (errpos : List Int) :
    Option (Except String (List Nat)) :=
  let coef_pos := errpos.map (fun p => (input.length : Int) - 1 - p)
  let errloc := find_errata_locator coef_pos
  let rev_synd := synd.reverse
  match find_error_evaluator rev_synd errloc ((errloc.length : Int) - 1) with
  | none => none
  | some erreval0 =>
    let erreval := erreval0.reverse
    let x := coef_pos.map (fun p => gf.pow GEN (-((N : Int) - p)))
    match correct_errata_go x erreval (x.zip errpos) 0 (List.replicate input.length 0) with
    | none => none
    | some (Except.error s) => some (Except.error s)
    | some (Except.ok e) => some (Except.ok (gf.poly_add input e))

/-- lib.rs `correct_message`: the public decode entry point.  `none` models a
Rust panic; all normal outcomes are `some` of a `Block`. -/
def correct_message (input : List Nat) : Option Block :=
  if input.length ≠ N then some ⟨RSState.Uncorrectable "invalid input", none⟩
  else
    let out := dual_basis.to_conv input
    let synd := calc_syndromes out PARITY_LEN
    match iter_max synd with
    | none => none
    | some mx =>
      if mx = 0 then some ⟨RSState.Ok, some input⟩
      else
        match forney_syndromes synd [] (out.length : Int) with
        | none => none
        | some fsynd =>
          match find_error_locator fsynd PARITY_LEN with
          | none => none
          | some errloc =>
            if errloc.isEmpty then none
            else
              let num_errs := errloc.length - 1
              if num_errs * 2 > PARITY_LEN then
                some ⟨RSState.Uncorrectable
                  ("too many errors to correct; expected no more than " ++
                    toString (PARITY_LEN / 2) ++ ", found " ++ toString num_errs), none⟩
              else
                let errpos := find_errors errloc.reverse
                if errpos.length ≠ num_errs then
                  some ⟨RSState.Uncorrectable
                    ("failed to generate error positions; expected " ++ toString num_errs ++
                      " postions, got " ++ toString errpos.length), none⟩
                else
                  match correct_errata out synd errpos with
                  | none => none
                  | some (Except.error err) => some ⟨RSState.Uncorrectable err, none⟩
                  | some (Except.ok out2) =>
                    match iter_max (calc_syndromes out2 PARITY_LEN) with
                    | none => none
                    | some mx2 =>
                      if mx2 > 0 then
                        some ⟨RSState.Uncorrectable "failed to correct all errors", none⟩
                      else
                        some ⟨RSState.Corrected ((errloc.length : Int) - 1),
                              some (dual_basis.to_dual out2)⟩

/-- lib.rs `has_errors`: maximum syndrome byte of the conventional-basis form
is nonzero. -/
def has_errors (msg : List Nat) : Bool :=
  (calc_syndromes (dual_basis.to_conv msg) PARITY_LEN).foldl
    (fun x i => if i > x then i else x) 0 != 0

/-- The error-free 255-byte test fixture of lib.rs (`FIXTURE_MSG`). -/
def FIXTURE_MSG : List Nat := [
    103, 196, 107, 167, 62, 190, 76, 51, 108, 178, 35, 58, 116, 6, 43, 24,
    171, 184, 9, 230, 125, 175, 93, 229, 223, 118, 37, 63, 185, 20, 238, 236,
    209, 163, 57, 95, 56, 104, 240, 38, 166, 138, 203, 9, 175, 78, 248, 147,
    247, 69, 75, 13, 169, 184, 116, 14, 243, 199, 237, 110, 163, 15, 246, 121,
    148, 22, 226, 127, 173, 145, 145, 4, 172, 164, 174, 180, 81, 118, 47, 98,
    3, 94, 161, 229, 92, 69, 248, 31, 122, 123, 232, 53, 216, 204, 81, 14,
    174, 58, 42, 100, 29, 3, 16, 205, 24, 230, 127, 239, 186, 217, 232, 152,
    71, 130, 156, 161, 88, 71, 37, 223, 65, 210, 1, 98, 60, 36, 136, 144,
    233, 215, 56, 27, 160, 162, 180, 35, 234, 126, 88, 13, 244, 97, 36, 20,
    176, 65, 144, 12, 183, 187, 92, 89, 27, 198, 105, 36, 15, 182, 14, 20,
    161, 177, 142, 72, 15, 23, 29, 251, 15, 56, 66, 227, 36, 88, 171, 130,
    168, 253, 223, 172, 104, 147, 61, 13, 143, 80, 82, 68, 108, 186, 211, 81,
    153, 156, 62, 173, 213, 168, 215, 157, 199, 127, 159, 201, 42, 172, 229, 194,
    205, 154, 155, 250, 45, 114, 171, 107, 164, 107, 139, 125, 250, 108, 131, 99,
    119, 159, 78, 154, 32, 53, 210, 145, 206, 244, 33, 26, 151, 60, 26, 21,
    157, 252, 152, 186, 114, 27, 154, 162, 233, 201, 70, 104, 206, 173, 39
  ]

/-- The fixture with the four corruptions the repository test introduces
(indices 0, 2, 4, 6 set to 0, 2, 2, 2). -/
def FIXTURE_CORRUPTED : List Nat := [
    0, 196, 2, 167, 2, 190, 2, 51, 108, 178, 35, 58, 116, 6, 43, 24,
    171, 184, 9, 230, 125, 175, 93, 229, 223, 118, 37, 63, 185, 20, 238, 236,
    209, 163, 57, 95, 56, 104, 240, 38, 166, 138, 203, 9, 175, 78, 248, 147,
    247, 69, 75, 13, 169, 184, 116, 14, 243, 199, 237, 110, 163, 15, 246, 121,
    148, 22, 226, 127, 173, 145, 145, 4, 172, 164, 174, 180, 81, 118, 47, 98,
    3, 94, 161, 229, 92, 69, 248, 31, 122, 123, 232, 53, 216, 204, 81, 14,
    174, 58, 42, 100, 29, 3, 16, 205, 24, 230, 127, 239, 186, 217, 232, 152,
    71, 130, 156, 161, 88, 71, 37, 223, 65, 210, 1, 98, 60, 36, 136, 144,
    233, 215, 56, 27, 160, 162, 180, 35, 234, 126, 88, 13, 244, 97, 36, 20,
    176, 65, 144, 12, 183, 187, 92, 89, 27, 198, 105, 36, 15, 182, 14, 20,
    161, 177, 142, 72, 15, 23, 29, 251, 15, 56, 66, 227, 36, 88, 171, 130,
    168, 253, 223, 172, 104, 147, 61, 13, 143, 80, 82, 68, 108, 186, 211, 81,
    153, 156, 62, 173, 213, 168, 215, 157, 199, 127, 159, 201, 42, 172, 229, 194,
    205, 154, 155, 250, 45, 114, 171, 107, 164, 107, 139, 125, 250, 108, 131, 99,
    119, 159, 78, 154, 32, 53, 210, 145, 206, 244, 33, 26, 151, 60, 26, 21,
    157, 252, 152, 186, 114, 27, 154, 162, 233, 201, 70, 104, 206, 173, 39
  ]

/-- The expected syndrome vector of the raw fixture (lib.rs
`test_calc_syndromes`). -/
def FIXTURE_SYNDROMES : List Nat := [
    0, 183, 213, 98, 123, 245, 160, 82, 145, 193, 210, 151, 208, 64, 104, 89,
    13, 203, 192, 132, 132, 104, 166, 217, 121, 249, 173, 76, 129, 159, 20, 47,
    120
  ]

/-- A 255-byte block on which the locator solver yields a degree-17 stripped
locator, driving `correct_message` into the over-threshold branch. -/
def OVER_THRESHOLD_BLOCK : List Nat := [
    14, 40, 137, 191, 81, 61, 130, 33, 79, 125, 122, 73, 231, 40, 146, 38,
    84, 204, 145, 104, 157, 205, 243, 68, 115, 170, 5, 126, 194, 251, 100, 52,
    45, 158, 186, 168, 132, 53, 105, 231, 184, 123, 211, 182, 204, 150, 76, 22,
    187, 151, 101, 225, 255, 107, 217, 99, 250, 96, 92, 156, 252, 190, 111, 122,
    84, 61, 55, 53, 9, 89, 2, 43, 207, 78, 33, 237, 14, 70, 13, 98,
    38, 150, 142, 46, 160, 247, 122, 212, 233, 235, 52, 225, 49, 188, 186, 141,
    86, 105, 207, 72, 223, 190, 69, 9, 44, 221, 216, 173, 12, 107, 47, 91,
    184, 240, 95, 204, 105, 232, 111, 144, 125, 221, 240, 166, 59, 120, 43, 100,
    138, 115, 212, 10, 244, 105, 138, 22, 155, 222, 143, 190, 234, 97, 12, 111,
    136, 79, 10, 154, 174, 69, 201, 177, 235, 221, 176, 159, 136, 207, 209, 209,
    73, 98, 215, 107, 79, 115, 100, 104, 253, 65, 215, 64, 134, 210, 150, 144,
    113, 194, 32, 242, 5, 130, 239, 156, 144, 82, 246, 10, 183, 126, 225, 49,
    137, 134, 36, 124, 215, 41, 42, 219, 110, 239, 209, 209, 13, 185, 171, 99,
    230, 25, 174, 252, 196, 149, 142, 126, 32, 34, 215, 72, 102, 165, 194, 253,
    32, 4, 243, 203, 108, 7, 98, 85, 67, 198, 93, 114, 253, 86, 28, 185,
    214, 67, 38, 37, 197, 132, 232, 197, 41, 202, 100, 188, 188, 128, 145
  ]

end RS2

namespace RS2

/-! ### Anchoring the packed log/antilog tables -/

theorem alogAt_zero : gf.alogAt 0 = 1 := by decide

/-- Each antilog entry is the previous one multiplied by alpha = 2 under the
polynomial reduction rules: the packed table is exactly the power table of the
primitive polynomial x^8+x^7+x^2+x+1. -/
theorem alogAt_succ : ∀ i < 254, gf.alogAt (i + 1) = gf.mult_nolut (gf.alogAt i) 2 := by decide

theorem alogAt_pos : ∀ i < 255, 0 < gf.alogAt i ∧ gf.alogAt i < 256 := by decide

theorem alogAt_logAt : ∀ a < 256, a ≠ 0 → gf.alogAt (gf.logAt a) = a := by decide

theorem logAt_alogAt : ∀ i < 255, gf.logAt (gf.alogAt i) = i := by decide

/-! ### Field operation facts -/

theorem mult_lt (a b : Nat) : gf.mult a b < 256 := by
  unfold gf.mult gf.alogAt
  split
  · omega
  · split
    · omega
    · exact Nat.mod_lt _ (by omega)

theorem mult_zero_right (a : Nat) : gf.mult a 0 = 0 := by
  unfold gf.mult; split <;> simp

theorem mult_zero_left (b : Nat) : gf.mult 0 b = 0 := by
  unfold gf.mult; simp

theorem mult_ne_zero {a b : Nat} (ha : a ≠ 0) (hb : b ≠ 0) : gf.mult a b ≠ 0 := by
  unfold gf.mult
  rw [if_neg ha, if_neg hb]
  have h := (alogAt_pos ((gf.logAt a + gf.logAt b) % 255) (Nat.mod_lt _ (by omega))).1
  omega

theorem pow_ne_zero (a : Nat) (e : Int) : gf.pow a e ≠ 0 := by
  unfold gf.pow
  have h := (alogAt_pos (gf.logAt a * (e % 255).toNat % 255) (Nat.mod_lt _ (by omega))).1
  omega

theorem pow_lt (a : Nat) (e : Int) : gf.pow a e < 256 := by
  unfold gf.pow
  exact (alogAt_pos _ (Nat.mod_lt _ (by omega))).2

theorem invAt_ne_zero (a : Nat) : gf.invAt a ≠ 0 := by
  unfold gf.invAt
  have h := (alogAt_pos ((255 - gf.logAt a) % 255) (Nat.mod_lt _ (by omega))).1
  omega

theorem invAt_lt (a : Nat) : gf.invAt a < 256 := by
  unfold gf.invAt
  exact (alogAt_pos _ (Nat.mod_lt _ (by omega))).2

theorem mult_one_facts : ∀ a < 256, gf.mult a 1 = a ∧ gf.mult 1 a = a := by decide

theorem mult_invAt : ∀ a < 256, a ≠ 0 →
    gf.mult a (gf.invAt a) = 1 ∧ gf.mult (gf.invAt a) a = 1 := by decide

theorem xor_lt_256 {a b : Nat} (ha : a < 256) (hb : b < 256) : a ^^^ b < 256 := by
  have h : a < 2 ^ 8 := ha
  have h' : b < 2 ^ 8 := hb
  exact Nat.xor_lt_two_pow h h'

end RS2

namespace RS2

/-! ### Polynomial helper lemmas -/

/-- Last element of a list, 0 for the empty list. -/
def lastD : List Nat → Nat
  | [] => 0
  | [a] => a
  | _ :: b :: t => lastD (b :: t)

theorem lastD_cons_of_ne_nil {l : List Nat} (h : l ≠ []) (a : Nat) :
    lastD (a :: l) = lastD l := by
  cases l with
  | nil => exact absurd rfl h
  | cons b t => rfl

theorem lastD_append {l₁ l₂ : List Nat} (h : l₂ ≠ []) :
    lastD (l₁ ++ l₂) = lastD l₂ := by
  induction l₁ with
  | nil => rfl
  | cons a t ih =>
    have ht : t ++ l₂ ≠ [] := by
      cases l₂ with
      | nil => exact absurd rfl h
      | cons b u => simp
    rw [List.cons_append, lastD_cons_of_ne_nil ht, ih]

theorem lastD_concat (l : List Nat) (x : Nat) : lastD (l ++ [x]) = x := by
  rw [lastD_append (by simp)]
  rfl

theorem lastD_map {l : List Nat} (h : l ≠ []) (f : Nat → Nat) :
    lastD (l.map f) = f (lastD l) := by
  induction l with
  | nil => exact absurd rfl h
  | cons a t ih =>
    cases t with
    | nil => rfl
    | cons b u =>
      rw [List.map_cons, lastD_cons_of_ne_nil (by simp), lastD_cons_of_ne_nil (by simp)]
      exact ih (by simp)

theorem lastD_zipWith_xor : ∀ (p q : List Nat), p.length = q.length → p ≠ [] →
    lastD (List.zipWith (fun a b => a ^^^ b) p q) = lastD p ^^^ lastD q := by
  intro p
  induction p with
  | nil => intro q _ h; exact absurd rfl h
  | cons a t ih =>
    intro q hlen _
    cases q with
    | nil => simp at hlen
    | cons b u =>
      cases t with
      | nil =>
        cases u with
        | nil => rfl
        | cons c v => simp at hlen
      | cons c v =>
        cases u with
        | nil => simp at hlen
        | cons d w =>
          have hzip : List.zipWith (fun a b => a ^^^ b) (c :: v) (d :: w) ≠ [] := by simp
          rw [List.zipWith_cons_cons, lastD_cons_of_ne_nil hzip (a ^^^ b),
              lastD_cons_of_ne_nil (show c :: v ≠ [] by simp) a,
              lastD_cons_of_ne_nil (show d :: w ≠ [] by simp) b]
          exact ih (d :: w) (by simpa using hlen) (by simp)

theorem poly_add_length (p q : List Nat) :
    (gf.poly_add p q).length = max p.length q.length := by
  unfold gf.poly_add
  rw [List.length_zipWith, List.length_append, List.length_append,
      List.length_replicate, List.length_replicate]
  omega

theorem poly_add_ne_nil {p q : List Nat} (h : p ≠ []) : gf.poly_add p q ≠ [] := by
  have hl := poly_add_length p q
  have hp : 0 < p.length := List.length_pos.mpr h
  have hle : p.length ≤ max p.length q.length := Nat.le_max_left _ _
  intro hc
  rw [hc] at hl
  simp only [List.length_nil] at hl
  omega

theorem lastD_poly_add {p q : List Nat} (hp : p ≠ []) (hq : q ≠ []) :
    lastD (gf.poly_add p q) = lastD p ^^^ lastD q := by
  have hp' : 0 < p.length := List.length_pos.mpr hp
  have hlen : (List.replicate (max p.length q.length - p.length) 0 ++ p).length =
      (List.replicate (max p.length q.length - q.length) 0 ++ q).length := by
    rw [List.length_append, List.length_append, List.length_replicate, List.length_replicate]
    have h1 := Nat.le_max_left p.length q.length
    have h2 := Nat.le_max_right p.length q.length
    omega
  have hne : List.replicate (max p.length q.length - p.length) 0 ++ p ≠ [] := by
    intro hc
    have := congrArg List.length hc
    rw [List.length_append, List.length_replicate, List.length_nil] at this
    omega
  unfold gf.poly_add
  rw [lastD_zipWith_xor _ _ hlen hne, lastD_append hp, lastD_append hq]

theorem lastD_poly_scale {p : List Nat} (hp : p ≠ []) (k : Nat) :
    lastD (gf.poly_scale p k) = gf.mult (lastD p) k := by
  unfold gf.poly_scale
  exact lastD_map hp _

theorem poly_scale_length (p : List Nat) (k : Nat) :
    (gf.poly_scale p k).length = p.length := by
  unfold gf.poly_scale
  exact List.length_map _ _

theorem poly_scale_ne_nil {p : List Nat} (hp : p ≠ []) (k : Nat) :
    gf.poly_scale p k ≠ [] := by
  unfold gf.poly_scale
  simpa using hp

theorem strip_leading_head_ne_zero : ∀ {l : List Nat} {c : Nat} {rest : List Nat},
    strip_leading l = c :: rest → c ≠ 0 := by
  intro l
  induction l with
  | nil => intro c rest h; simp [strip_leading] at h
  | cons a t ih =>
    intro c rest h
    by_cases ha : a = 0
    · rw [strip_leading, if_pos ha] at h
      exact ih h
    · rw [strip_leading, if_neg ha] at h
      cases h
      exact ha

theorem strip_leading_ne_nil : ∀ {l : List Nat}, lastD l ≠ 0 → strip_leading l ≠ [] := by
  intro l
  induction l with
  | nil => intro h; exact absurd rfl h
  | cons a t ih =>
    intro h
    by_cases ha : a = 0
    · rw [strip_leading, if_pos ha]
      apply ih
      cases t with
      | nil => subst ha; exact absurd rfl h
      | cons b u => rwa [lastD_cons_of_ne_nil (by simp)] at h
    · rw [strip_leading, if_neg ha]
      simp

theorem poly_add_replicate_zero (p : List Nat) :
    gf.poly_add p (List.replicate p.length 0) = p := by
  unfold gf.poly_add
  rw [List.length_replicate]
  simp only [Nat.max_self, Nat.sub_self, List.replicate_zero, List.nil_append]
  induction p with
  | nil => rfl
  | cons a t ih =>
    simp only [List.length_cons, List.replicate_succ, List.zipWith_cons_cons]
    rw [Nat.xor_zero]
    exact congrArg _ ih

end RS2

namespace RS2

/-! ### Claim theorems: basis conversion, input validation, detection -/

/-- C2: for every byte value x, the two dual-basis conversion tables are
mutually inverse: to_dual (to_conv [x]) = [x], to_conv (to_dual [x]) = [x],
and the same at table level, so the tables are mutually inverse permutations
of the byte space. -/
theorem claim_C2 : ∀ x : Fin 256,
    dual_basis.to_dual (dual_basis.to_conv [x.val]) = [x.val] ∧
    dual_basis.to_conv (dual_basis.to_dual [x.val]) = [x.val] ∧
    dual_basis.CONV_TO_DUAL.getD (dual_basis.DUAL_TO_CONV.getD x.val 0) 0 = x.val ∧
    dual_basis.DUAL_TO_CONV.getD (dual_basis.CONV_TO_DUAL.getD x.val 0) 0 = x.val := by
  decide

/-- C5: an input whose length is not 255 is rejected immediately as
uncorrectable "invalid input" with no message. -/
theorem claim_C5 (input : List Nat) (h : input.length ≠ 255) :
    correct_message input = some ⟨RSState.Uncorrectable "invalid input", none⟩ := by
  unfold correct_message
  rw [if_pos (by simpa [N] using h)]

theorem claim_C5_witness :
    correct_message [] = some ⟨RSState.Uncorrectable "invalid input", none⟩ :=
  claim_C5 [] (by decide)

theorem foldl_max_eq_zero_iff : ∀ (l : List Nat) (acc : Nat),
    (l.foldl (fun x i => if i > x then i else x) acc = 0) ↔ (acc = 0 ∧ ∀ s ∈ l, s = 0) := by
  intro l
  induction l with
  | nil => intro acc; simp
  | cons a t ih =>
    intro acc
    rw [List.foldl_cons, ih]
    constructor
    · rintro ⟨h1, h2⟩
      by_cases hc : a > acc
      · rw [if_pos hc] at h1; omega
      · rw [if_neg hc] at h1
        refine ⟨h1, fun s hs => ?_⟩
        rcases List.mem_cons.mp hs with rfl | hs
        · omega
        · exact h2 s hs
    · rintro ⟨h1, h2⟩
      have ha : a = 0 := h2 a (List.mem_cons_self a t)
      subst ha
      rw [if_neg (by omega)]
      exact ⟨h1, fun s hs => h2 s (List.mem_cons_of_mem _ hs)⟩

/-- C6: has_errors returns false exactly when every syndrome of the
conventional-basis form of the block is zero, true otherwise. -/
theorem claim_C6 (msg : List Nat) :
    has_errors msg = false ↔
      ∀ s ∈ calc_syndromes (dual_basis.to_conv msg) PARITY_LEN, s = 0 := by
  unfold has_errors
  rw [bne_eq_false_iff_eq, foldl_max_eq_zero_iff]
  simp

theorem correct_message_ok_of_zero_syndromes (input : List Nat) (hlen : input.length = 255)
    (hsynd : calc_syndromes (dual_basis.to_conv input) PARITY_LEN = List.replicate 33 0) :
    correct_message input = some ⟨RSState.Ok, some input⟩ := by
  unfold correct_message
  rw [if_neg (by simp [N, hlen])]
  simp only [hsynd]
  rfl

/-- C3: a 255-byte input whose conventional-basis form has the all-zero
syndrome vector (33 zeros) decodes to state Ok with the input returned
unchanged. -/
theorem claim_C3 (input : List Nat) (hlen : input.length = 255)
    (hsynd : calc_syndromes (dual_basis.to_conv input) PARITY_LEN = List.replicate 33 0) :
    correct_message input = some ⟨RSState.Ok, some input⟩ :=
  correct_message_ok_of_zero_syndromes input hlen hsynd

theorem claim_C3_witness :
    correct_message (List.replicate 255 0) =
      some ⟨RSState.Ok, some (List.replicate 255 0)⟩ :=
  claim_C3 (List.replicate 255 0) (by simp) (by decide)

end RS2

namespace RS2

/-! ### C8: the error evaluator is a remainder modulo a power of x -/

/-- Remainder of a (most-significant-first) polynomial modulo x^m: the low m
coefficients, i.e. everything but the first length - m entries.  This is the
specification-side notion used to compare against `find_error_evaluator`. -/
def remainder_mod_xpow (p : List Nat) (m : Nat) : List Nat :=
  p.drop (p.length - m)

theorem foldl_xor_lt {α : Type} (g : α → Nat) (hg : ∀ i, g i < 256) :
    ∀ (l : List α) (acc : Nat), acc < 256 →
      l.foldl (fun a i => a ^^^ g i) acc < 256 := by
  intro l
  induction l with
  | nil => intro acc h; simpa using h
  | cons a t ih =>
    intro acc h
    rw [List.foldl_cons]
    exact ih _ (xor_lt_256 h (hg a))

theorem poly_mult_coeff_lt (p q : List Nat) : ∀ c ∈ gf.poly_mult p q, c < 256 := by
  intro c hc
  unfold gf.poly_mult at hc
  rcases List.mem_map.mp hc with ⟨k, _, rfl⟩
  exact foldl_xor_lt _ (fun i => by
    split
    · exact mult_lt _ _
    · omega) _ _ (by omega)

theorem invAt_one : gf.invAt 1 = 1 := by decide

theorem zipWith_xor_replicate_zero : ∀ (t : List Nat),
    List.zipWith (fun a b => a ^^^ b) t (List.replicate t.length 0) = t := by
  intro t
  induction t with
  | nil => rfl
  | cons a u ih =>
    simp only [List.length_cons, List.replicate_succ, List.zipWith_cons_cons, Nat.xor_zero]
    exact congrArg _ ih

theorem poly_add_eq_zipWith {p q : List Nat} (h : p.length = q.length) :
    gf.poly_add p q = List.zipWith (fun a b => a ^^^ b) p q := by
  unfold gf.poly_add
  rw [h, Nat.max_self, Nat.sub_self, List.replicate_zero, List.nil_append, List.nil_append]

theorem poly_div_go_monic_rem (m : Nat) : ∀ (fuel : Nat) (cur : List Nat),
    cur.length ≤ fuel → (∀ c ∈ cur, c < 256) →
    (gf.poly_div_go 1 (List.replicate m 0) fuel cur).2 = cur.drop (cur.length - m) := by
  intro fuel
  induction fuel with
  | zero =>
    intro cur hle _
    have hnil : cur = [] := List.length_eq_zero.mp (Nat.le_zero.mp hle)
    subst hnil
    simp [gf.poly_div_go]
  | succ fuel ih =>
    intro cur hle hlt
    by_cases hshort : cur.length < (List.replicate (m : Nat) (0 : Nat)).length + 1
    · rw [gf.poly_div_go, if_pos hshort]
      rw [List.length_replicate] at hshort
      have h0 : cur.length - m = 0 := by omega
      rw [h0, List.drop_zero]
    · obtain ⟨h, t, rfl⟩ : ∃ h t, cur = h :: t := by
        cases cur with
        | nil => rw [List.length_replicate] at hshort; simp at hshort
        | cons h t => exact ⟨h, t, rfl⟩
      have hshort' := hshort
      rw [List.length_replicate] at hshort'
      have hlen2 : (h :: t).length = t.length + 1 := by simp
      have hh : h < 256 := hlt h (List.mem_cons_self _ _)
      have hc : gf.mult ((h :: t).headD 0) (gf.invAt 1) = h := by
        rw [List.headD_cons, invAt_one]
        exact (mult_one_facts h hh).1
      have hscale : gf.poly_scale (1 :: List.replicate m 0)
          (gf.mult ((h :: t).headD 0) (gf.invAt 1)) = h :: List.replicate m 0 := by
        rw [hc]
        unfold gf.poly_scale
        rw [List.map_cons, List.map_replicate, mult_zero_left, (mult_one_facts h hh).2]
      have hrep : (List.replicate m (0 : Nat) ++
          List.replicate ((h :: t).length - (m + 1)) 0) = List.replicate t.length 0 := by
        rw [← List.replicate_add]
        congr 1
        omega
      have hsub : gf.poly_add (h :: t)
          (gf.poly_scale (1 :: List.replicate m 0) (gf.mult ((h :: t).headD 0) (gf.invAt 1)) ++
            List.replicate ((h :: t).length - (m + 1)) 0) = 0 :: t := by
        rw [hscale, List.cons_append, hrep]
        rw [poly_add_eq_zipWith (by simp)]
        rw [List.zipWith_cons_cons, Nat.xor_self, zipWith_xor_replicate_zero]
      have key : (gf.poly_div_go 1 (List.replicate m 0) (fuel + 1) (h :: t)).2 =
          (gf.poly_div_go 1 (List.replicate m 0) fuel t).2 := by
        rw [gf.poly_div_go, if_neg hshort]
        simp only [List.length_replicate, hsub, List.tail_cons]
      rw [key]
      rw [ih t (by simpa using Nat.lt_succ_iff.mp (Nat.lt_of_lt_of_le (Nat.lt_succ_self _) hle))
        (fun c hcm => hlt c (List.mem_cons_of_mem _ hcm))]
      have h1 : (h :: t).length - m = t.length - m + 1 := by omega
      rw [h1, List.drop_succ_cons]

/-- C8 (amended): for every syndrome polynomial, errata locator and
non-negative degree parameter n, `find_error_evaluator synd errloc n` is the
remainder of dividing synd * errloc by x^(n+1) — not x^(n+2) as the claim
states: the divisor built by the code is the length-(n+2) vector with leading
one, which is the degree-(n+1) polynomial x^(n+1). -/
theorem claim_C8 (synd errloc : List Nat) (n : Int) (hn : 0 ≤ n) :
    find_error_evaluator synd errloc n =
      some (remainder_mod_xpow (gf.poly_mult synd errloc) (n.toNat + 1)) := by
  unfold find_error_evaluator
  rw [if_neg (by omega)]
  unfold gf.poly_div
  simp only [if_neg (by omega : ¬ (1 : Nat) = 0)]
  rw [poly_div_go_monic_rem (n.toNat + 1) _ _ (Nat.le_refl _) (poly_mult_coeff_lt synd errloc)]
  rfl

theorem claim_C8_witness :
    find_error_evaluator [1, 2, 3] [1, 1] 1 =
      some (remainder_mod_xpow (gf.poly_mult [1, 2, 3] [1, 1]) ((1 : Int).toNat + 1)) :=
  claim_C8 [1, 2, 3] [1, 1] 1 (by decide)

/-- C8 counterexample: at synd = [1,1,1,1], errloc = [1], n = 0 the function
returns the remainder modulo x^1 = [1], while the remainder modulo x^(0+2)
claimed by the spec would be [1,1]. -/
theorem claim_C8_counterexample :
    find_error_evaluator [1, 1, 1, 1] [1] 0 = some [1] ∧
    remainder_mod_xpow (gf.poly_mult [1, 1, 1, 1] [1]) ((0 : Int).toNat + 2) = [1, 1] ∧
    ([1] : List Nat) ≠ [1, 1] := by
  refine ⟨by decide, by decide, by decide⟩

end RS2

namespace RS2

/-! ### Totality of the locator solver (Berlekamp-Massey loop) -/

theorem foldlM_option_some {α β : Type} (f : β → α → Option β) :
    ∀ (l : List α), (∀ a ∈ l, ∀ b, ∃ b', f b a = some b') →
      ∀ b, ∃ b', l.foldlM f b = some b' := by
  intro l
  induction l with
  | nil => intro _ b; exact ⟨b, rfl⟩
  | cons a t ih =>
    intro h b
    obtain ⟨b1, hb1⟩ := h a (List.mem_cons_self _ _) b
    obtain ⟨b', hb'⟩ := ih (fun x hx c => h x (List.mem_cons_of_mem _ hx) c) b1
    refine ⟨b', ?_⟩
    rw [List.foldlM_cons, hb1]
    simpa using hb'

theorem bl_delta_some (synd errloc : List Nat) (k : Nat)
    (hk : k < synd.length) (hlen : errloc.length ≤ k + 1) :
    ∃ d, bl_delta synd errloc k = some d := by
  unfold bl_delta
  rw [List.get?_eq_get hk]
  apply foldlM_option_some
  intro j hj b
  rw [List.mem_range'_1] at hj
  have hjk : j ≤ k := by omega
  rw [if_pos hjk]
  have h1 : k - j < synd.length := by omega
  have h2 : errloc.length - j - 1 < errloc.length := by omega
  rw [List.get?_eq_get h1, List.get?_eq_get h2]
  exact ⟨_, rfl⟩

/-- Loop invariant of the locator solver: both polynomials are nonempty, their
lengths are bounded by the iteration count, and the last (constant-term)
coefficient of errloc is nonzero. -/
def BLInv (i : Nat) (st : List Nat × List Nat) : Prop :=
  st.1 ≠ [] ∧ st.2 ≠ [] ∧ st.1.length ≤ i + 1 ∧ st.2.length ≤ i + 1 ∧ lastD st.1 ≠ 0

theorem bl_step_some (synd : List Nat) (i : Nat) (st : List Nat × List Nat)
    (hs : i < synd.length) (hinv : BLInv i st) :
    ∃ st', bl_step synd 0 st i = some st' ∧ BLInv (i + 1) st' := by
  obtain ⟨h1, h2, h3, h4, h5⟩ := hinv
  obtain ⟨d, hd⟩ := bl_delta_some synd st.1 (i + 0) (by simpa using hs) (by simpa using h3)
  unfold bl_step
  rw [hd]
  dsimp only
  by_cases hd0 : d = 0
  · rw [if_pos hd0]
    refine ⟨(st.1, st.2 ++ [0]), rfl, h1, by simp,
      show st.1.length ≤ i + 1 + 1 by omega,
      show (st.2 ++ [0]).length ≤ i + 1 + 1 by
        rw [List.length_append]; simp only [List.length_cons, List.length_nil]; omega,
      h5⟩
  · rw [if_neg hd0]
    have happ : st.2 ++ [0] ≠ [] := by simp
    by_cases hsw : (st.2 ++ [0]).length > st.1.length
    · rw [if_pos hsw]
      unfold gf.inv
      rw [if_neg hd0]
      dsimp only
      refine ⟨_, rfl,
        poly_add_ne_nil (poly_scale_ne_nil happ d), poly_scale_ne_nil h1 _,
        show (gf.poly_add (gf.poly_scale (st.2 ++ [0]) d)
            (gf.poly_scale (gf.poly_scale st.1 (gf.invAt d)) d)).length ≤ i + 1 + 1 by
          rw [poly_add_length, poly_scale_length, poly_scale_length, poly_scale_length,
            List.length_append]
          simp only [List.length_cons, List.length_nil]
          omega,
        show (gf.poly_scale st.1 (gf.invAt d)).length ≤ i + 1 + 1 by
          rw [poly_scale_length]; omega,
        ?_⟩
      show lastD (gf.poly_add (gf.poly_scale (st.2 ++ [0]) d)
          (gf.poly_scale (gf.poly_scale st.1 (gf.invAt d)) d)) ≠ 0
      rw [lastD_poly_add (poly_scale_ne_nil happ d)
        (poly_scale_ne_nil (poly_scale_ne_nil h1 _) d)]
      rw [lastD_poly_scale happ, lastD_concat, mult_zero_left, Nat.zero_xor]
      rw [lastD_poly_scale (poly_scale_ne_nil h1 _), lastD_poly_scale h1]
      exact mult_ne_zero (mult_ne_zero h5 (invAt_ne_zero d)) hd0
    · rw [if_neg hsw]
      refine ⟨_, rfl, poly_add_ne_nil h1, happ,
        show (gf.poly_add st.1 (gf.poly_scale (st.2 ++ [0]) d)).length ≤ i + 1 + 1 by
          rw [poly_add_length, poly_scale_length, List.length_append]
          simp only [List.length_cons, List.length_nil]
          omega,
        show (st.2 ++ [0]).length ≤ i + 1 + 1 by
          rw [List.length_append]; simp only [List.length_cons, List.length_nil]; omega,
        ?_⟩
      show lastD (gf.poly_add st.1 (gf.poly_scale (st.2 ++ [0]) d)) ≠ 0
      rw [lastD_poly_add h1 (poly_scale_ne_nil happ d)]
      rw [lastD_poly_scale happ, lastD_concat, mult_zero_left, Nat.xor_zero]
      exact h5

theorem bl_loop (synd : List Nat) :
    ∀ (n i : Nat) (st : List Nat × List Nat), i + n ≤ synd.length → BLInv i st →
      ∃ st', (List.range' i n).foldlM (bl_step synd 0) st = some st' ∧ BLInv (i + n) st' := by
  intro n
  induction n with
  | zero => intro i st _ hinv; exact ⟨st, rfl, by simpa using hinv⟩
  | succ n ih =>
    intro i st hle hinv
    obtain ⟨st1, hst1, hinv1⟩ := bl_step_some synd i st (by omega) hinv
    obtain ⟨st', hst', hinv'⟩ := ih (i + 1) st1 (by omega) hinv1
    refine ⟨st', ?_, ?_⟩
    · rw [show List.range' i (n + 1) = i :: List.range' (i + 1) n from rfl,
        List.foldlM_cons, hst1]
      simpa using hst'
    · have harith : (i + 1) + n = i + (n + 1) := by omega
      rwa [harith] at hinv'

theorem find_error_locator_total (synd : List Nat) (plen : Nat) (hs : synd.length = plen) :
    ∃ errloc, find_error_locator synd plen = some errloc ∧ errloc ≠ [] := by
  have hshift : ¬ synd.length > plen := by omega
  obtain ⟨st', hst', hinv'⟩ := bl_loop synd plen 0 ([1], [1]) (by omega)
    ⟨by simp, by simp, by simp, by simp, by simp [lastD]⟩
  refine ⟨strip_leading st'.1, ?_, strip_leading_ne_nil hinv'.2.2.2.2⟩
  unfold find_error_locator
  simp only [if_neg hshift]
  rw [List.range_eq_range', hst']

theorem find_error_locator_head (synd : List Nat) (plen : Nat) (l : List Nat)
    (h : find_error_locator synd plen = some l) : ∀ c rest, l = c :: rest → c ≠ 0 := by
  intro c rest hl
  simp only [find_error_locator] at h
  rcases hfold : List.foldlM (bl_step synd (if synd.length > plen then synd.length - plen else 0))
      ([1], [1]) (List.range plen) with _ | st
  · rw [hfold] at h
    cases h
  · rw [hfold, Option.some_inj] at h
    subst h
    exact strip_leading_head_ne_zero hl

end RS2

namespace RS2

/-! ### Totality of the errata corrector and of the decoder -/

theorem poly_mult_length (p q : List Nat) :
    (gf.poly_mult p q).length = p.length + q.length - 1 := by
  unfold gf.poly_mult
  rw [List.length_map, List.length_range]

theorem find_errata_locator_pos (l : List Int) : 0 < (find_errata_locator l).length := by
  unfold find_errata_locator
  have hgen : ∀ (acc : List Nat), 0 < acc.length →
      0 < (l.foldl (fun errloc p =>
        gf.poly_mult errloc (gf.poly_add [1] [gf.pow GEN p, 0])) acc).length := by
    induction l with
    | nil => intro acc h; simpa using h
    | cons p t ih =>
      intro acc h
      rw [List.foldl_cons]
      apply ih
      rw [poly_mult_length, poly_add_length]
      simp only [List.length_cons, List.length_nil]
      omega
  exact hgen [1] (by simp)

theorem find_errors_mem (l : List Nat) : ∀ p ∈ find_errors l, 0 ≤ p ∧ p < 255 := by
  intro p hp
  unfold find_errors at hp
  rcases List.mem_filterMap.mp hp with ⟨i, hi, hfi⟩
  rw [List.mem_range] at hi
  split at hfi
  · rw [Option.some_inj] at hfi
    subst hfi
    have : (i : Int) < 255 := by exact_mod_cast hi
    constructor <;> [skip; skip] <;> simp only [N] <;> omega
  · cases hfi

theorem correct_errata_go_some (x erreval : List Nat) :
    ∀ (pairs : List (Nat × Int)) (i : Nat) (e : List Nat),
      (∀ q ∈ pairs, q.1 ≠ 0 ∧ 0 ≤ q.2 ∧ q.2.toNat < e.length) →
      ∃ r, correct_errata_go x erreval pairs i e = some r := by
  intro pairs
  induction pairs with
  | nil => intro i e _; exact ⟨Except.ok e, rfl⟩
  | cons q rest ih =>
    intro i e hq
    obtain ⟨xi, p⟩ := q
    obtain ⟨hxi, hp0, hpl⟩ := hq (xi, p) (List.mem_cons_self _ _)
    unfold correct_errata_go
    unfold gf.inv
    rw [if_neg hxi]
    dsimp only
    by_cases hpr : (((List.range x.length).filter (fun j => j ≠ i)).map
        (fun j => 1 ^^^ gf.mult (gf.invAt xi) (x.getD j 0))).foldl
          (fun acc c => gf.mult acc c) 1 = 0
    · rw [if_pos hpr]
      exact ⟨_, rfl⟩
    · rw [if_neg hpr]
      unfold gf.div
      rw [if_neg hpr]
      dsimp only
      rw [if_pos ⟨hp0, hpl⟩]
      apply ih
      intro q' hq'
      have := hq q' (List.mem_cons_of_mem _ hq')
      rwa [List.length_set]

theorem correct_errata_go_ok_length (x erreval : List Nat) :
    ∀ (pairs : List (Nat × Int)) (i : Nat) (e r : List Nat),
      correct_errata_go x erreval pairs i e = some (Except.ok r) → r.length = e.length := by
  intro pairs
  induction pairs with
  | nil =>
    intro i e r h
    unfold correct_errata_go at h
    rw [Option.some_inj] at h
    cases h
    rfl
  | cons q rest ih =>
    intro i e r h
    obtain ⟨xi, p⟩ := q
    unfold correct_errata_go at h
    split at h
    · cases h
    · dsimp only at h
      split at h
      · rw [Option.some_inj] at h
        cases h
      · split at h
        · cases h
        · split at h
          · have := ih (i + 1) _ r h
            rwa [List.length_set] at this
          · cases h

theorem correct_errata_some (input synd : List Nat) (errpos : List Int)
    (hpos : ∀ p ∈ errpos, 0 ≤ p ∧ p.toNat < input.length) :
    ∃ r, correct_errata input synd errpos = some r := by
  unfold correct_errata
  have hlenloc := find_errata_locator_pos
    (errpos.map (fun p => (input.length : Int) - 1 - p))
  have hev : ∃ ev, find_error_evaluator synd.reverse
      (find_errata_locator (errpos.map (fun p => (input.length : Int) - 1 - p)))
      (((find_errata_locator (errpos.map (fun p => (input.length : Int) - 1 - p))).length : Int)
        - 1) = some ev := by
    unfold find_error_evaluator
    rw [if_neg (by
      have : (1 : Int) ≤ ((find_errata_locator
        (errpos.map (fun p => (input.length : Int) - 1 - p))).length : Int) := by
        exact_mod_cast hlenloc
      omega)]
    unfold gf.poly_div
    dsimp only
    rw [if_neg (by omega : ¬ (1 : Nat) = 0)]
    exact ⟨_, rfl⟩
  obtain ⟨ev, hev⟩ := hev
  dsimp only
  rw [hev]
  dsimp only
  obtain ⟨r, hr⟩ := correct_errata_go_some
    ((errpos.map (fun p => (input.length : Int) - 1 - p)).map
      (fun p => gf.pow GEN (-((N : Int) - p))))
    ev.reverse
    (((errpos.map (fun p => (input.length : Int) - 1 - p)).map
      (fun p => gf.pow GEN (-((N : Int) - p)))).zip errpos)
    0 (List.replicate input.length 0)
    (by
      intro q hq
      have hmem := List.of_mem_zip hq
      rcases List.mem_map.mp hmem.1 with ⟨p', _, hp'⟩
      have h2 := hpos q.2 hmem.2
      refine ⟨?_, h2.1, ?_⟩
      · rw [← hp']
        exact pow_ne_zero GEN _
      · rw [List.length_replicate]
        exact h2.2)
  rw [hr]
  cases r with
  | error s => exact ⟨_, rfl⟩
  | ok e => exact ⟨_, rfl⟩

theorem to_conv_length (msg : List Nat) : (dual_basis.to_conv msg).length = msg.length := by
  unfold dual_basis.to_conv
  exact List.length_map _ _

theorem to_dual_length (msg : List Nat) : (dual_basis.to_dual msg).length = msg.length := by
  unfold dual_basis.to_dual
  exact List.length_map _ _

end RS2

namespace RS2

/-- C4: for every input list (in particular every 255-byte block, with no
further assumption on its contents), correct_message returns an outcome:
none of the modelled panic points (index out of bounds, integer underflow in
the degree computation, inversion of zero, division by zero, unwrap of an
empty maximum) is reachable. -/
theorem claim_C4 (input : List Nat) : ∃ b, correct_message input = some b := by
  by_cases hlen : input.length = 255
  · unfold correct_message
    rw [if_neg (by simp [N, hlen])]
    have hout_len : (dual_basis.to_conv input).length = 255 := by
      rw [to_conv_length, hlen]
    simp only [calc_syndromes, iter_max]
    by_cases hmx : ((List.range PARITY_LEN).map (fun (i : Nat) =>
        gf.poly_eval (dual_basis.to_conv input) (gf.pow GEN ((i : Int) + FCR)))).foldl
          Nat.max 0 = 0
    · rw [if_pos hmx]
      exact ⟨_, rfl⟩
    · rw [if_neg hmx]
      simp only [forney_syndromes, List.foldlM_nil]
      obtain ⟨errloc, hloc, hne⟩ := find_error_locator_total
        ((List.range PARITY_LEN).map (fun (i : Nat) =>
          gf.poly_eval (dual_basis.to_conv input) (gf.pow GEN ((i : Int) + FCR))))
        PARITY_LEN (by rw [List.length_map, List.length_range])
      rw [hloc]
      dsimp only
      obtain ⟨c, rest, rfl⟩ : ∃ c rest, errloc = c :: rest := by
        cases errloc with
        | nil => exact absurd rfl hne
        | cons c rest => exact ⟨c, rest, rfl⟩
      rw [if_neg (by simp)]
      by_cases hth : ((c :: rest).length - 1) * 2 > PARITY_LEN
      · rw [if_pos hth]
        exact ⟨_, rfl⟩
      · rw [if_neg hth]
        by_cases hcount : (find_errors (c :: rest).reverse).length ≠ (c :: rest).length - 1
        · rw [if_pos hcount]
          exact ⟨_, rfl⟩
        · rw [if_neg hcount]
          obtain ⟨r, hr⟩ := correct_errata_some (dual_basis.to_conv input)
            (0 :: (List.range PARITY_LEN).map (fun (i : Nat) =>
              gf.poly_eval (dual_basis.to_conv input) (gf.pow GEN ((i : Int) + FCR))))
            (find_errors (c :: rest).reverse)
            (by
              intro p hp
              have h := find_errors_mem _ p hp
              refine ⟨h.1, ?_⟩
              rw [hout_len]
              omega)
          rw [hr]
          cases r with
          | error s => exact ⟨_, rfl⟩
          | ok out2 =>
            dsimp only
            by_cases hmx2 : ((List.range PARITY_LEN).map (fun (i : Nat) =>
                gf.poly_eval out2 (gf.pow GEN ((i : Int) + FCR)))).foldl Nat.max 0 > 0
            · rw [if_pos hmx2]
              exact ⟨_, rfl⟩
            · rw [if_neg hmx2]
              exact ⟨_, rfl⟩
  · unfold correct_message
    rw [if_pos (by simpa [N] using hlen)]
    exact ⟨_, rfl⟩

end RS2

namespace RS2

/-! ### C9: a message is carried exactly on the Ok and Corrected outcomes -/

theorem correct_errata_ok_length (input synd : List Nat) (errpos : List Int) (r : List Nat)
    (h : correct_errata input synd errpos = some (Except.ok r)) : r.length = input.length := by
  unfold correct_errata at h
  dsimp only at h
  rcases hev : find_error_evaluator synd.reverse
      (find_errata_locator (List.map (fun p => (input.length : Int) - 1 - p) errpos))
      (((find_errata_locator (List.map (fun p => (input.length : Int) - 1 - p) errpos)).length : Int)
        - 1) with _ | ev
  · rw [hev] at h
    cases h
  · rw [hev] at h
    dsimp only at h
    rcases hgo : correct_errata_go
        (List.map (fun p => gf.pow GEN (-((N : Int) - p)))
          (List.map (fun p => (input.length : Int) - 1 - p) errpos))
        ev.reverse
        ((List.map (fun p => gf.pow GEN (-((N : Int) - p)))
          (List.map (fun p => (input.length : Int) - 1 - p) errpos)).zip errpos)
        0 (List.replicate input.length 0) with _ | r'
    · rw [hgo] at h
      cases h
    · rw [hgo] at h
      cases r' with
      | error s => simp at h
      | ok e =>
        dsimp only at h
        rw [Option.some_inj] at h
        injection h with h'
        subst h'
        have hlen := correct_errata_go_ok_length _ _ _ _ _ _ hgo
        rw [List.length_replicate] at hlen
        rw [poly_add_length, hlen]
        exact Nat.max_self _

/-- C9: the Block returned by correct_message carries a message — a Some of
exactly 255 bytes — if and only if its state is Ok or Corrected, and for
every Uncorrectable state the message is None. -/
theorem claim_C9 (input : List Nat) (b : Block) (h : correct_message input = some b) :
    ((∃ m, b.message = some m ∧ m.length = 255) ↔
      (b.state = RSState.Ok ∨ ∃ k, b.state = RSState.Corrected k)) ∧
    (∀ r, b.state = RSState.Uncorrectable r → b.message = none) := by
  by_cases hlen : input.length = 255
  · unfold correct_message at h
    rw [if_neg (by simp [N, hlen])] at h
    simp only [calc_syndromes, iter_max] at h
    by_cases hmx : ((List.range PARITY_LEN).map (fun (i : Nat) =>
        gf.poly_eval (dual_basis.to_conv input) (gf.pow GEN ((i : Int) + FCR)))).foldl
          Nat.max 0 = 0
    · rw [if_pos hmx, Option.some_inj] at h
      subst h
      exact ⟨iff_of_true ⟨input, rfl, hlen⟩ (Or.inl rfl), by simp⟩
    · rw [if_neg hmx] at h
      simp only [forney_syndromes, List.foldlM_nil] at h
      obtain ⟨errloc, hloc, hne⟩ := find_error_locator_total
        ((List.range PARITY_LEN).map (fun (i : Nat) =>
          gf.poly_eval (dual_basis.to_conv input) (gf.pow GEN ((i : Int) + FCR))))
        PARITY_LEN (by rw [List.length_map, List.length_range])
      rw [hloc] at h
      dsimp only at h
      obtain ⟨c, rest, rfl⟩ : ∃ c rest, errloc = c :: rest := by
        cases errloc with
        | nil => exact absurd rfl hne
        | cons c rest => exact ⟨c, rest, rfl⟩
      rw [if_neg (by simp)] at h
      by_cases hth : ((c :: rest).length - 1) * 2 > PARITY_LEN
      · rw [if_pos hth, Option.some_inj] at h
        subst h
        exact ⟨iff_of_false (by simp) (by simp), fun _ _ => rfl⟩
      · rw [if_neg hth] at h
        by_cases hcount : (find_errors (c :: rest).reverse).length ≠ (c :: rest).length - 1
        · rw [if_pos hcount, Option.some_inj] at h
          subst h
          exact ⟨iff_of_false (by simp) (by simp), fun _ _ => rfl⟩
        · rw [if_neg hcount] at h
          rcases hr : correct_errata (dual_basis.to_conv input)
              (0 :: (List.range PARITY_LEN).map (fun (i : Nat) =>
                gf.poly_eval (dual_basis.to_conv input) (gf.pow GEN ((i : Int) + FCR))))
              (find_errors (c :: rest).reverse) with _ | r
          · rw [hr] at h
            cases h
          · rw [hr] at h
            cases r with
            | error s =>
              dsimp only at h
              rw [Option.some_inj] at h
              subst h
              exact ⟨iff_of_false (by simp) (by simp), fun _ _ => rfl⟩
            | ok out2 =>
              dsimp only at h
              by_cases hmx2 : ((List.range PARITY_LEN).map (fun (i : Nat) =>
                  gf.poly_eval out2 (gf.pow GEN ((i : Int) + FCR)))).foldl Nat.max 0 > 0
              · rw [if_pos hmx2, Option.some_inj] at h
                subst h
                exact ⟨iff_of_false (by simp) (by simp), fun _ _ => rfl⟩
              · rw [if_neg hmx2, Option.some_inj] at h
                subst h
                have hout2 : out2.length = 255 := by
                  rw [correct_errata_ok_length _ _ _ _ hr, to_conv_length, hlen]
                exact ⟨iff_of_true
                  ⟨dual_basis.to_dual out2, rfl, by rw [to_dual_length, hout2]⟩
                  (Or.inr ⟨((c :: rest).length : Int) - 1, rfl⟩), by simp⟩
  · unfold correct_message at h
    rw [if_pos (by simpa [N] using hlen), Option.some_inj] at h
    subst h
    exact ⟨iff_of_false (by simp) (by simp), fun _ _ => rfl⟩

theorem claim_C9_witness :
    (((∃ m, (Block.mk (RSState.Uncorrectable "invalid input") none).message = some m ∧
        m.length = 255) ↔
      ((Block.mk (RSState.Uncorrectable "invalid input") none).state = RSState.Ok ∨
        ∃ k, (Block.mk (RSState.Uncorrectable "invalid input") none).state =
          RSState.Corrected k)) ∧
    (∀ r, (Block.mk (RSState.Uncorrectable "invalid input") none).state =
        RSState.Uncorrectable r →
      (Block.mk (RSState.Uncorrectable "invalid input") none).message = none)) :=
  claim_C9 [] ⟨RSState.Uncorrectable "invalid input", none⟩ (by decide)

end RS2

namespace RS2

/-! ### C10: Corrected counts lie in [1, 16] -/

theorem find_errors_single {c : Nat} (hc : c ≠ 0) : find_errors [c] = [] := by
  unfold find_errors
  refine List.filterMap_eq_nil_iff.mpr (fun i _ => ?_)
  rw [if_neg]
  simpa [gf.poly_eval, gf.poly_eval_go] using hc

theorem correct_errata_nil (input synd : List Nat) :
    correct_errata input synd [] = some (Except.ok input) := by
  unfold correct_errata
  simp only [List.map_nil]
  have h1 : find_errata_locator [] = [1] := rfl
  rw [h1]
  have hev : ∃ ev, find_error_evaluator synd.reverse [1] ((([1] : List Nat).length : Int) - 1) =
      some ev := by
    unfold find_error_evaluator
    rw [if_neg (by norm_num)]
    unfold gf.poly_div
    dsimp only
    rw [if_neg (by omega : ¬ (1 : Nat) = 0)]
    exact ⟨_, rfl⟩
  obtain ⟨ev, hev⟩ := hev
  rw [hev]
  dsimp only
  rw [show correct_errata_go [] ev.reverse ([].zip []) 0 (List.replicate input.length 0) =
    some (Except.ok (List.replicate input.length 0)) from rfl]
  dsimp only
  rw [poly_add_replicate_zero]

/-- C10: whenever correct_message reports Corrected(k), the count k lies in
[1, 16]: it equals the stripped locator degree, bounded by the threshold
check, and k = 0 is impossible because a degree-zero locator applies no
correction to a block with nonzero syndromes, which the final re-syndrome
verification then rejects. -/
theorem claim_C10 (input : List Nat) (b : Block) (k : Int)
    (h : correct_message input = some b) (hb : b.state = RSState.Corrected k) :
    1 ≤ k ∧ k ≤ 16 := by
  by_cases hlen : input.length = 255
  · unfold correct_message at h
    rw [if_neg (by simp [N, hlen])] at h
    simp only [calc_syndromes, iter_max] at h
    by_cases hmx : ((List.range PARITY_LEN).map (fun (i : Nat) =>
        gf.poly_eval (dual_basis.to_conv input) (gf.pow GEN ((i : Int) + FCR)))).foldl
          Nat.max 0 = 0
    · rw [if_pos hmx, Option.some_inj] at h
      subst h
      simp at hb
    · rw [if_neg hmx] at h
      simp only [forney_syndromes, List.foldlM_nil] at h
      obtain ⟨errloc, hloc, hne⟩ := find_error_locator_total
        ((List.range PARITY_LEN).map (fun (i : Nat) =>
          gf.poly_eval (dual_basis.to_conv input) (gf.pow GEN ((i : Int) + FCR))))
        PARITY_LEN (by rw [List.length_map, List.length_range])
      have hhead := find_error_locator_head _ _ _ hloc
      rw [hloc] at h
      dsimp only at h
      obtain ⟨c, rest, rfl⟩ : ∃ c rest, errloc = c :: rest := by
        cases errloc with
        | nil => exact absurd rfl hne
        | cons c rest => exact ⟨c, rest, rfl⟩
      rw [if_neg (by simp)] at h
      by_cases hth : ((c :: rest).length - 1) * 2 > PARITY_LEN
      · rw [if_pos hth, Option.some_inj] at h
        subst h
        simp at hb
      · rw [if_neg hth] at h
        cases rest with
        | nil =>
          have hc : c ≠ 0 := hhead c [] rfl
          rw [if_neg (by simp [List.reverse_singleton, find_errors_single hc])] at h
          rw [List.reverse_singleton, find_errors_single hc, correct_errata_nil] at h
          dsimp only at h
          rw [if_pos (Nat.pos_of_ne_zero hmx), Option.some_inj] at h
          subst h
          simp at hb
        | cons d t =>
          by_cases hcount : (find_errors (c :: d :: t).reverse).length ≠ (c :: d :: t).length - 1
          · rw [if_pos hcount, Option.some_inj] at h
            subst h
            simp at hb
          · rw [if_neg hcount] at h
            rcases hr : correct_errata (dual_basis.to_conv input)
                (0 :: (List.range PARITY_LEN).map (fun (i : Nat) =>
                  gf.poly_eval (dual_basis.to_conv input) (gf.pow GEN ((i : Int) + FCR))))
                (find_errors (c :: d :: t).reverse) with _ | r
            · rw [hr] at h
              cases h
            · rw [hr] at h
              cases r with
              | error s =>
                dsimp only at h
                rw [Option.some_inj] at h
                subst h
                simp at hb
              | ok out2 =>
                dsimp only at h
                by_cases hmx2 : ((List.range PARITY_LEN).map (fun (i : Nat) =>
                    gf.poly_eval out2 (gf.pow GEN ((i : Int) + FCR)))).foldl Nat.max 0 > 0
                · rw [if_pos hmx2, Option.some_inj] at h
                  subst h
                  simp at hb
                · rw [if_neg hmx2, Option.some_inj] at h
                  subst h
                  simp only [RSState.Corrected.injEq] at hb
                  have hlc : (c :: d :: t).length = t.length + 2 := by simp
                  rw [PARITY_LEN] at hth
                  omega
  · unfold correct_message at h
    rw [if_pos (by simpa [N] using hlen), Option.some_inj] at h
    subst h
    simp at hb

theorem claim_C10_witness : 1 ≤ (1 : Int) ∧ (1 : Int) ≤ 16 :=
  claim_C10 (0 :: 1 :: List.replicate 253 0)
    ⟨RSState.Corrected 1, some (List.replicate 255 0)⟩ 1 (by decide) rfl

end RS2

namespace RS2

/-! ### C7: the over-threshold branch -/

/-- C7: when the pipeline reaches the locator solver (syndromes not all zero)
and the stripped locator has degree d with 2d > 32, correct_message rejects
with a reason naming both the bound 16 and the found count d, and returns no
message; neither the position search nor any correction step affects the
outcome. -/
theorem claim_C7 (input : List Nat) (errloc : List Nat)
    (hlen : input.length = 255)
    (hmx : iter_max (calc_syndromes (dual_basis.to_conv input) PARITY_LEN) ≠ some 0)
    (hloc : find_error_locator ((calc_syndromes (dual_basis.to_conv input) PARITY_LEN).tail)
      PARITY_LEN = some errloc)
    (hth : (errloc.length - 1) * 2 > PARITY_LEN) :
    correct_message input = some ⟨RSState.Uncorrectable
      ("too many errors to correct; expected no more than " ++ toString (PARITY_LEN / 2) ++
        ", found " ++ toString (errloc.length - 1)), none⟩ := by
  simp only [calc_syndromes, iter_max, ne_eq, Option.some_inj] at hmx
  simp only [calc_syndromes, List.tail_cons] at hloc
  unfold correct_message
  rw [if_neg (by simp [N, hlen])]
  simp only [calc_syndromes, iter_max]
  rw [if_neg hmx]
  simp only [forney_syndromes, List.foldlM_nil]
  rw [hloc]
  dsimp only
  obtain ⟨c, rest, rfl⟩ : ∃ c rest, errloc = c :: rest := by
    cases errloc with
    | nil => simp [PARITY_LEN] at hth
    | cons c rest => exact ⟨c, rest, rfl⟩
  rw [if_neg (by simp)]
  rw [if_pos hth]

/-- The stripped locator polynomial the solver produces on
`OVER_THRESHOLD_BLOCK`; its degree is 17. -/
def OVER_THRESHOLD_LOCATOR : List Nat :=
  [114, 132, 203, 151, 251, 140, 34, 1, 242, 70, 46, 98, 245, 111, 132, 145, 81, 1]

theorem claim_C7_witness :
    correct_message OVER_THRESHOLD_BLOCK = some ⟨RSState.Uncorrectable
      ("too many errors to correct; expected no more than " ++ toString (PARITY_LEN / 2) ++
        ", found " ++ toString (OVER_THRESHOLD_LOCATOR.length - 1)), none⟩ :=
  claim_C7 OVER_THRESHOLD_BLOCK OVER_THRESHOLD_LOCATOR (by decide) (by decide) (by decide)
    (by decide)

end RS2

namespace RS2

/-! ### Concrete decodes of the repository's own test scenarios -/

/-- The repository's error-free fixture is a valid codeword (all syndromes of
its conventional form are zero) and decodes to Ok with the input unchanged,
as in the lib.rs test `test_correct_message_noerrors`.  In particular a
corruption set of size zero yields Ok, never Corrected(0). -/
theorem fixture_decodes_ok :
    calc_syndromes (dual_basis.to_conv FIXTURE_MSG) PARITY_LEN = List.replicate 33 0 ∧
    correct_message FIXTURE_MSG = some ⟨RSState.Ok, some FIXTURE_MSG⟩ := by
  have hsynd : calc_syndromes (dual_basis.to_conv FIXTURE_MSG) PARITY_LEN =
      List.replicate 33 0 := by decide
  exact ⟨hsynd, correct_message_ok_of_zero_syndromes FIXTURE_MSG (by decide) hsynd⟩

/-- The fixture corrupted at the four distinct positions 0, 2, 4, 6 decodes
to Corrected(4) with exactly the uncorrupted fixture as message, as in the
lib.rs test `test_correct_message_introduced_errors` (which only checks the
state and the message length; the restoration is checked bit-exact here). -/
theorem fixture_corrupted_decodes_corrected_four :
    correct_message FIXTURE_CORRUPTED = some ⟨RSState.Corrected 4, some FIXTURE_MSG⟩ := by
  decide

end RS2
